import Mathlib

/-
Verification development for the journald-2-syslog shipper.

The definitions below are a shallow embedding of src/main.rs: the worker
child loop of main_wrapper, the checkpoint thread read_write_cursor_thread,
the network shipper send_json_to_remote_host, and the history seek
resolution of initialize_the_environment.  Strings are modelled as Lean
strings (lists of characters); Rust std helpers used by the source
(str::replace, str::to_lowercase restricted to ASCII keys,
str::trim_left_matches, IpAddr parsing) are modelled by executable Lean
functions defined here.
-/

set_option autoImplicit false

namespace JournaldShipper

/-- Cursor record as in main.rs line 114: a single opaque position string.
The default value (empty position) is the null cursor. -/
structure CursorRecord where
  position : String
deriving DecidableEq, Repr

instance : Inhabited CursorRecord := ⟨⟨""⟩⟩

/-- Host record as in main.rs line 120: host name, port and protocol. -/
structure HostRecord where
  host : String
  port : Nat
  protocol : String
deriving DecidableEq, Repr

/-- Fuel-driven model of Rust str::replace on character lists: scan left to
right, replacing each non-overlapping occurrence of the pattern.  The fuel
argument is the length of the scanned list, which bounds the recursion. -/
def replaceFuel (pat repl : List Char) : Nat → List Char → List Char
  | _, [] => []
  | 0, s => s
  | n + 1, c :: rest =>
    if pat.isPrefixOf (c :: rest) then
      repl ++ replaceFuel pat repl n (List.drop (pat.length - 1) rest)
    else
      c :: replaceFuel pat repl n rest

/-- Model of Rust str::replace: replace every non-overlapping occurrence of
pat by repl, scanning left to right. -/
def replaceAll (pat repl s : List Char) : List Char :=
  replaceFuel pat repl s.length s

/-- ASCII lowercasing of a single character, modelling str::to_lowercase on
the ASCII field names produced by journald. -/
def lowerChar : Char → Char
  | 'A' => 'a'
  | 'B' => 'b'
  | 'C' => 'c'
  | 'D' => 'd'
  | 'E' => 'e'
  | 'F' => 'f'
  | 'G' => 'g'
  | 'H' => 'h'
  | 'I' => 'i'
  | 'J' => 'j'
  | 'K' => 'k'
  | 'L' => 'l'
  | 'M' => 'm'
  | 'N' => 'n'
  | 'O' => 'o'
  | 'P' => 'p'
  | 'Q' => 'q'
  | 'R' => 'r'
  | 'S' => 's'
  | 'T' => 't'
  | 'U' => 'u'
  | 'V' => 'v'
  | 'W' => 'w'
  | 'X' => 'x'
  | 'Y' => 'y'
  | 'Z' => 'z'
  | c => c

/-- Field-name normalization chain of main.rs lines 845-850: replace
underscore by dot, lowercase, strip leading dots, then the two substring
replacements source to originator and message-dot to originator-dot. -/
def normalizeKey (k : String) : String :=
  ⟨replaceAll "message.".data "originator.".data
    (replaceAll "source".data "originator".data
      (List.dropWhile (fun c => c == '.')
        ((replaceAll "_".data ".".data k.data).map lowerChar)))⟩

/-- Key renaming as the claim states it: after the base chain (underscore to
dot, lowercase, strip leading dots), rename to originator only a field whose
entire name is literally source, and rewrite message-dot only when it is a
prefix.  This definition follows the words of the spec, for comparison with
normalizeKey which is taken from the source. -/
def claimNormalizeKey (k : String) : String :=
  let base :=
    List.dropWhile (fun c => c == '.')
      ((replaceAll "_".data ".".data k.data).map lowerChar)
  if base = "source".data then "originator"
  else if "message.".data.isPrefixOf base then ⟨"originator.".data ++ List.drop 8 base⟩
  else ⟨base⟩

/-- Split a character list at each non-overlapping occurrence of the
pattern, fuel-driven like replaceFuel.  Used to give an independent
formulation of replace-all as split-then-join. -/
def splitPat (pat : List Char) : Nat → List Char → List (List Char)
  | _, [] => [[]]
  | 0, s => [s]
  | n + 1, c :: rest =>
    if pat.isPrefixOf (c :: rest) then
      [] :: splitPat pat n (List.drop (pat.length - 1) rest)
    else
      match splitPat pat n rest with
      | [] => [[c]]
      | g :: gs => (c :: g) :: gs

/-- Join a list of groups with a separator between consecutive groups. -/
def joinWith (sep : List Char) : List (List Char) → List Char
  | [] => []
  | [g] => g
  | g :: gs => g ++ sep ++ joinWith sep gs

/-- Independent formulation of replace-all: split on the pattern, then join
the pieces with the replacement. -/
def specReplace (pat repl s : List Char) : List Char :=
  joinWith repl (splitPat pat s.length s)

/-- Key renaming as amended: the base chain followed by replacement of every
occurrence of source and then of every occurrence of message-dot, written
with the independent split-then-join replacement. -/
def specNormalizeKey (k : String) : String :=
  ⟨specReplace "message.".data "originator.".data
    (specReplace "source".data "originator".data
      (List.dropWhile (fun c => c == '.')
        ((specReplace "_".data ".".data k.data).map lowerChar)))⟩

theorem splitPat_ne_nil (pat : List Char) :
    ∀ n s, splitPat pat n s ≠ [] := by
  intro n
  induction n with
  | zero => intro s; cases s <;> simp [splitPat]
  | succ n ih =>
    intro s
    cases s with
    | nil => simp [splitPat]
    | cons c rest =>
      simp only [splitPat]
      split
      · simp
      · cases h : splitPat pat n rest with
        | nil => simp
        | cons g gs => simp

theorem replaceFuel_eq_joinWith_splitPat (pat repl : List Char) :
    ∀ n s, replaceFuel pat repl n s = joinWith repl (splitPat pat n s) := by
  intro n
  induction n with
  | zero => intro s; cases s <;> simp [replaceFuel, splitPat, joinWith]
  | succ n ih =>
    intro s
    cases s with
    | nil => simp [replaceFuel, splitPat, joinWith]
    | cons c rest =>
      simp only [replaceFuel, splitPat]
      split
      · rw [ih]
        cases h : splitPat pat n (List.drop (pat.length - 1) rest) with
        | nil => exact absurd h (splitPat_ne_nil pat n _)
        | cons g gs => simp [joinWith]
      · rw [ih]
        cases h : splitPat pat n rest with
        | nil => exact absurd h (splitPat_ne_nil pat n rest)
        | cons g gs =>
          cases gs with
          | nil => simp [joinWith]
          | cons g2 gs2 => simp [joinWith]

theorem replaceAll_eq_specReplace (pat repl s : List Char) :
    replaceAll pat repl s = specReplace pat repl s :=
  replaceFuel_eq_joinWith_splitPat pat repl s.length s

/-- UTC wall-clock time with microsecond precision, the shape of the
timestamps the child loop obtains from journal.timestamp() or Utc::now(). -/
structure UtcTime where
  year : Nat
  month : Nat
  day : Nat
  hour : Nat
  minute : Nat
  second : Nat
  micro : Nat
deriving DecidableEq, Repr

/-- Decimal digit character of n modulo 10. -/
def digitChar (n : Nat) : Char :=
  match n % 10 with
  | 0 => '0'
  | 1 => '1'
  | 2 => '2'
  | 3 => '3'
  | 4 => '4'
  | 5 => '5'
  | 6 => '6'
  | 7 => '7'
  | 8 => '8'
  | _ => '9'

/-- Two-digit zero-padded decimal rendering. -/
def pad2 (n : Nat) : List Char :=
  [digitChar (n / 10), digitChar n]

/-- Three-digit zero-padded decimal rendering. -/
def pad3 (n : Nat) : List Char :=
  [digitChar (n / 100), digitChar (n / 10), digitChar n]

/-- Four-digit zero-padded decimal rendering. -/
def pad4 (n : Nat) : List Char :=
  [digitChar (n / 1000), digitChar (n / 100), digitChar (n / 10), digitChar n]

/-- Six-digit zero-padded decimal rendering. -/
def pad6 (n : Nat) : List Char :=
  [digitChar (n / 100000), digitChar (n / 10000), digitChar (n / 1000),
   digitChar (n / 100), digitChar (n / 10), digitChar n]

/-- Fractional-second part of chrono to_rfc3339 at microsecond granularity:
omitted when zero, printed with three digits when a whole number of
milliseconds, else with six digits. -/
def fracChars (micro : Nat) : List Char :=
  if micro = 0 then []
  else if micro % 1000 = 0 then '.' :: pad3 (micro / 1000)
  else '.' :: pad6 micro

/-- Date-time body of the chrono to_rfc3339 rendering of a UTC time, without
the UTC offset suffix. -/
def bodyChars (t : UtcTime) : List Char :=
  pad4 t.year ++ '-' :: pad2 t.month ++ '-' :: pad2 t.day ++
    'T' :: pad2 t.hour ++ ':' :: pad2 t.minute ++ ':' :: pad2 t.second ++
    fracChars t.micro

/-- The UTC offset literal that chrono to_rfc3339 appends for DateTime in
the Utc zone. -/
def plusZeroSuffix : List Char := ['+', '0', '0', ':', '0', '0']

/-- Model of chrono DateTime in Utc to_rfc3339: the date-time body followed
by the plus-zero-zero offset literal. -/
def toRfc3339Chars (t : UtcTime) : List Char :=
  bodyChars t ++ plusZeroSuffix

/-- Timestamp string built by the child loop (main.rs line 835):
to_rfc3339 followed by replace of the offset literal by Z. -/
def timestampString (t : UtcTime) : String :=
  ⟨replaceAll plusZeroSuffix ['Z'] (toRfc3339Chars t)⟩

/-- One journal entry as seen by the child loop: the record field map, the
cursor string journal.cursor() yields at that entry, and the source
timestamp when available. -/
structure JEntry where
  fields : List (String × String)
  cursor : String
  timestamp : Option UtcTime
deriving DecidableEq, Repr

/-- Insert into the JSON object map with last-write-wins semantics, as
serde_json Map insert behaves. -/
def jmInsert (k v : String) (m : List (String × String)) : List (String × String) :=
  (m.filter fun kv => kv.1 != k) ++ [(k, v)]

/-- Lookup in the JSON object map. -/
def jmLookup (k : String) (m : List (String × String)) : Option String :=
  (m.find? fun kv => kv.1 == k).map Prod.snd

/-- Document construction of main.rs lines 831-853: the timestamp (source
timestamp, or the current wall clock when unavailable) under at-timestamp
and journald.timestamp, the cursor under journald.cursor, then every record
field under its normalized key. -/
def mkJsonDoc (now : UtcTime) (e : JEntry) : List (String × String) :=
  let ts := timestampString (e.timestamp.getD now)
  let m := jmInsert "@timestamp" ts []
  let m := jmInsert "journald.timestamp" ts m
  let m := jmInsert "journald.cursor" e.cursor m
  e.fields.foldl (fun acc kv => jmInsert (normalizeKey kv.1) kv.2 acc) m

/-- Child read loop of main.rs lines 764-876: iterate the bounded range of
999999 loop counts, read the next record (blocking until one exists), and
for each record whose cursor is not the null cursor, build the JSON document
and send the pair of document and cursor into the delivery queue. -/
def childProcess (now : UtcTime) (journal : List JEntry) :
    List (List (String × String) × CursorRecord) :=
  (journal.take 999999).filterMap fun e =>
    if e.cursor ≠ "" then some (mkJsonDoc now e, ⟨e.cursor⟩) else none

/-- Final value of the local cursor variable of the child after its loop
(main.rs line 826 assigns it for every record read), starting from the seek
cursor the child was seeded with. -/
def childFinalCursor (seed : CursorRecord) (journal : List JEntry) : CursorRecord :=
  ((journal.take 999999).map fun e => CursorRecord.mk e.cursor).getLast?.getD seed

/-- Shipper inner loop of main.rs lines 144-169 over a connected stream:
pop each queued pair, write the JSON line; on success send the cursor to the
checkpoint task and continue; on failure sleep the fixed backoff and panic,
terminating the shipper.  Returns the acknowledged cursors, the queue
entries never written, and whether the shipper panicked. -/
def runShipper (wOk : List (String × String) → Bool) :
    List (List (String × String) × CursorRecord) →
      List CursorRecord × List (List (String × String) × CursorRecord) × Bool
  | [] => ([], [], false)
  | e :: rest =>
    if wOk e.1 then
      let r := runShipper wOk rest
      (e.2 :: r.1, r.2.1, r.2.2)
    else ([], e :: rest, true)

/-- State of the checkpoint thread of main.rs lines 174-222: the instant of
the last durable write, the last written cursor value, and the last received
cursor value. -/
structure CursorThreadState where
  pit : Nat
  writtenCursorValue : CursorRecord
  localCursorValue : CursorRecord
deriving DecidableEq, Repr

/-- One iteration of the checkpoint loop (main.rs lines 195-221): a received
cursor replaces the local value, and the file is rewritten only when more
than 1234 milliseconds elapsed since the last write and the value changed;
a receive timeout leaves the state unchanged.  Returns the new state and the
value written to the file, when a write happened. -/
def cursorStep (s : CursorThreadState) (now : Nat) (recv : Option CursorRecord) :
    CursorThreadState × Option CursorRecord :=
  match recv with
  | none => (s, none)
  | some c =>
    if 1234 < now - s.pit ∧ s.writtenCursorValue ≠ c then
      ({ pit := now, writtenCursorValue := c, localCursorValue := c }, some c)
    else
      ({ s with localCursorValue := c }, none)

/-- Run the checkpoint loop over a timed list of receive results, collecting
the durable write events as pairs of time and written value. -/
def cursorRun (s : CursorThreadState) :
    List (Nat × Option CursorRecord) → List (Nat × CursorRecord)
  | [] => []
  | (now, recv) :: rest =>
    match cursorStep s now recv with
    | (s2, some c) => (now, c) :: cursorRun s2 rest
    | (s2, none) => cursorRun s2 rest

/-- Write events spaced more than 1234 milliseconds apart, measured from a
given previous write instant. -/
def writesSpaced : Nat → List (Nat × CursorRecord) → Prop
  | _, [] => True
  | prev, (t, _) :: rest => prev + 1234 < t ∧ writesSpaced t rest

/-- Accumulating splitter for splitOnChar. -/
def splitOnCharAux (sep : Char) : List Char → List Char → List (List Char)
  | [], acc => [acc.reverse]
  | c :: rest, acc =>
    if c = sep then acc.reverse :: splitOnCharAux sep rest []
    else splitOnCharAux sep rest (c :: acc)

/-- Split a character list on a separator character. -/
def splitOnChar (sep : Char) (s : List Char) : List (List Char) :=
  splitOnCharAux sep s []

/-- Model of serde_yaml from_str for CursorRecord: find a line of the form
position-colon-space followed by the cursor value; any other document fails
to parse. -/
def parseCursorYaml (s : String) : Option CursorRecord :=
  (splitOnChar '\n' s.data).findSome? fun line =>
    if "position: ".data.isPrefixOf line then some ⟨⟨List.drop 10 line⟩⟩ else none

/-- Startup sequence of read_write_cursor_thread (main.rs lines 180-193) as
written: the yaml buffer starts empty, the cursor value is parsed from that
still-empty buffer with default on failure, then the file content is read
into the buffer, and the already-computed cursor value is sent. -/
def loadInitialCursor (fileContent : String) : CursorRecord :=
  let yamlString := ""
  let localCursorValue := (parseCursorYaml yamlString).getD ⟨""⟩
  let yamlStringAfterRead := fileContent
  let _ := yamlStringAfterRead
  localCursorValue

/-- Parent state of main_wrapper across supervisor cycles: the local cursor
value captured from initialization (main.rs line 716). -/
structure ParentState where
  localCursorValue : CursorRecord
deriving DecidableEq, Repr

/-- One supervisor cycle of main_wrapper (main.rs lines 726-936): fork gives
the child a copy of the parent state; the child seeks to the cursor in its
copy (lines 758-762) and updates only its copy while running (lines
826-828); the parent only waits for the exit status (lines 903-935), so its
own state is unchanged when the cycle ends.  Returns the parent state after
the cycle and the cursor the child sought to. -/
def supervisorCycle (p : ParentState) (journal : List JEntry) :
    ParentState × CursorRecord :=
  let childCopy := p
  let seekCursor := childCopy.localCursorValue
  let childCopyAtExit :=
    { childCopy with localCursorValue := childFinalCursor seekCursor journal }
  let _ := childCopyAtExit
  let parentAfterWait := p
  (parentAfterWait, seekCursor)

/-- Seek cursors used by successive workers started by the supervisor loop,
one per worker journal run. -/
def supervisorSeeks (p : ParentState) : List (List JEntry) → List CursorRecord
  | [] => []
  | j :: js =>
    let pc := supervisorCycle p j
    pc.2 :: supervisorSeeks pc.1 js

/-
History seek resolution for the count policy (main.rs lines 636-700).
Positions in a journal of m records: 0 is before the first record, i in
1..m is at the i-th oldest record.  next_record at the last record returns
none and stays put; previous_record at or before the first record returns
none and stays put.
-/

/-- Position after one next_record call on a journal of m records. -/
def nextPos (m pos : Nat) : Nat :=
  if pos < m then pos + 1 else pos

/-- The first advance loop for a positive count (main.rs lines 657-663):
advance k records, breaking out early when next_record yields none. -/
def advanceWithStop (m : Nat) : Nat → Nat → Nat
  | 0, pos => pos
  | k + 1, pos => if pos < m then advanceWithStop m k (pos + 1) else pos

/-- The second advance loop for a positive count (main.rs lines 665-667):
advance k more times unconditionally; next_record past the end is a no-op
that unwraps to none without error. -/
def advanceUnchecked (m : Nat) : Nat → Nat → Nat
  | 0, pos => pos
  | k + 1, pos => advanceUnchecked m k (nextPos m pos)

/-- Resolved position for history policy count n with n positive on a
journal of m records: seek to head (the rewind loop keeps the position
before the first record), then run both advance loops. -/
def seekCountPositive (n m : Nat) : Nat :=
  advanceUnchecked m n (advanceWithStop m n 0)

/-
Host endpoint resolution (main.rs lines 136-141 and 738-751).  The
configuration view holds the three host keys when present; IpAddr parsing
models Rust std FromStr for IpAddr: exact dotted-quad IPv4, and a
simplified IPv6 recognizer that requires colon-separated hexadecimal
groups.
-/

/-- Configuration view of the three host keys consumed when building the
remote HostRecord. -/
structure ConfigView where
  hostName : Option String
  hostPort : Option Int
  hostProtocol : Option String
deriving DecidableEq, Repr

/-- An IP address literal: a dotted-quad IPv4 address or an IPv6 address
given by its group values. -/
inductive IpAddr
  | v4 (a b c d : Nat)
  | v6 (groups : List Nat)
deriving DecidableEq, Repr

/-- Decimal digit test. -/
def isDecDigit (c : Char) : Bool :=
  48 ≤ c.toNat && c.toNat ≤ 57

/-- Hexadecimal digit value, when the character is one. -/
def hexVal (c : Char) : Option Nat :=
  if 48 ≤ c.toNat ∧ c.toNat ≤ 57 then some (c.toNat - 48)
  else if 97 ≤ c.toNat ∧ c.toNat ≤ 102 then some (c.toNat - 87)
  else if 65 ≤ c.toNat ∧ c.toNat ≤ 70 then some (c.toNat - 55)
  else none

/-- Decimal value of a digit string. -/
def decValue (cs : List Char) : Nat :=
  cs.foldl (fun acc c => acc * 10 + (c.toNat - 48)) 0

/-- Parse one IPv4 octet as Rust std does: one to three decimal digits,
no redundant leading zero, value at most 255. -/
def parseOctet (cs : List Char) : Option Nat :=
  if cs ≠ [] ∧ cs.length ≤ 3 ∧ cs.all isDecDigit ∧
      (cs.length = 1 ∨ cs.head? ≠ some '0') ∧ decValue cs ≤ 255 then
    some (decValue cs)
  else none

/-- Parse a dotted-quad IPv4 literal. -/
def parseIpv4 (s : List Char) : Option IpAddr :=
  match splitOnChar '.' s with
  | [a, b, c, d] =>
    match parseOctet a, parseOctet b, parseOctet c, parseOctet d with
    | some a', some b', some c', some d' => some (.v4 a' b' c' d')
    | _, _, _, _ => none
  | _ => none

/-- Parse one IPv6 group: one to four hexadecimal digits. -/
def parseHexGroup (cs : List Char) : Option Nat :=
  if cs ≠ [] ∧ cs.length ≤ 4 then
    (cs.mapM hexVal).map fun ds => ds.foldl (fun acc d => acc * 16 + d) 0
  else none

/-- Simplified recognizer for IPv6 literals, modelling Rust std FromStr: a
colon must be present; either eight colon-separated hexadecimal groups, or
fewer groups with one elision run of empty parts standing for the
double-colon. -/
def parseIpv6 (s : List Char) : Option IpAddr :=
  let parts := splitOnChar ':' s
  if parts.length < 3 ∨ 9 < parts.length then none
  else
    let emptyCount := (parts.filter fun p => p.isEmpty).length
    let nonEmpty := parts.filter fun p => ¬ p.isEmpty
    match nonEmpty.mapM parseHexGroup with
    | none => none
    | some gs =>
      if emptyCount = 0 ∧ parts.length = 8 then some (.v6 gs)
      else if 1 ≤ emptyCount ∧ emptyCount ≤ 3 ∧ gs.length ≤ 7 then some (.v6 gs)
      else none

/-- Model of Rust std FromStr for IpAddr: try IPv4 then IPv6. -/
def parseIpAddr (s : String) : Option IpAddr :=
  (parseIpv4 s.data).orElse fun _ => parseIpv6 s.data

/-- The loopback address the shipper falls back to. -/
def localhostIp : IpAddr := .v4 127 0 0 1

/-- Connection address resolution of send_json_to_remote_host (main.rs
lines 136-139): parse the configured host as an IP address literal, and on
any parse failure silently use 127.0.0.1. -/
def shipperConnectIp (host : String) : IpAddr :=
  (parseIpAddr host).getD localhostIp

/-- Parse a port number the way to_string followed by parse into u16
behaves: succeed exactly on values from 0 to 65535. -/
def parseU16 (i : Int) : Option Nat :=
  if 0 ≤ i ∧ i ≤ 65535 then some i.toNat else none

/-- Remote host construction of main_wrapper (main.rs lines 738-751):
host name defaults to 127.0.0.1, port defaults to 9000, protocol defaults
to tcp; the port value round-trips through a u16 parse whose failure
aborts the worker, modelled as none. -/
def remoteHostOf (c : ConfigView) : Option HostRecord :=
  (parseU16 (c.hostPort.getD 9000)).map fun p =>
    { host := c.hostName.getD "127.0.0.1"
      port := p
      protocol := c.hostProtocol.getD "tcp" }

/-
Helper lemmas.
-/

theorem mem_takeWhile_mem_and_holds {α : Type} (p : α → Bool) :
    ∀ (l : List α) (a : α), a ∈ l.takeWhile p → a ∈ l ∧ p a = true := by
  intro l
  induction l with
  | nil => intro a h; simp [List.takeWhile] at h
  | cons x xs ih =>
    intro a h
    rw [List.takeWhile_cons] at h
    by_cases hx : p x
    · simp [hx] at h
      rcases h with h | h
      · rw [h]; exact ⟨List.mem_cons_self x xs, hx⟩
      · rcases ih a h with ⟨h1, h2⟩
        exact ⟨List.mem_cons_of_mem x h1, h2⟩
    · simp [hx] at h

theorem runShipper_acks_eq (wOk : List (String × String) → Bool)
    (es : List (List (String × String) × CursorRecord)) :
    (runShipper wOk es).1 = (es.takeWhile fun e => wOk e.1).map Prod.snd := by
  induction es with
  | nil => rfl
  | cons e rest ih =>
    by_cases h : wOk e.1
    · simp [runShipper, List.takeWhile_cons, h, ih]
    · simp [runShipper, List.takeWhile_cons, h]

/-- C1: the shipper acknowledges a cursor to the checkpoint task only after
the write of that record's JSON line returned success: the acknowledged
cursors are exactly the cursors of the maximal prefix of successful writes,
and every acknowledged cursor belongs to a queued record whose write
succeeded. -/
theorem shipper_acks_only_after_successful_write
    (wOk : List (String × String) → Bool)
    (es : List (List (String × String) × CursorRecord)) :
    (runShipper wOk es).1 = (es.takeWhile fun e => wOk e.1).map Prod.snd ∧
    ∀ c, c ∈ (runShipper wOk es).1 →
      ∃ e, e ∈ es ∧ e.2 = c ∧ wOk e.1 = true := by
  refine ⟨runShipper_acks_eq wOk es, ?_⟩
  intro c hc
  rw [runShipper_acks_eq wOk es] at hc
  rcases List.mem_map.mp hc with ⟨e, he, rfl⟩
  rcases mem_takeWhile_mem_and_holds _ es e he with ⟨h1, h2⟩
  exact ⟨e, h1, rfl, h2⟩

/-- Witness for C1 at a concrete queue and a write oracle that succeeds. -/
theorem shipper_acks_only_after_successful_write_witness :
    ∃ e, e ∈ [([("msg", "v")], CursorRecord.mk "c1")] ∧
      e.2 = CursorRecord.mk "c1" ∧ (fun _ => true) e.1 = true :=
  (shipper_acks_only_after_successful_write (fun _ => true)
    [([("msg", "v")], CursorRecord.mk "c1")]).2 (CursorRecord.mk "c1") (by decide)

/-- C2: evidence of the load slip in read_write_cursor_thread: on a backing
file holding a persisted cursor C1 the startup value sent to the pipeline is
the null cursor, because the yaml buffer is parsed while still empty and the
file content read afterwards is never parsed; the same document parses to C1
under the deserializer the thread uses for its own writes. -/
theorem checkpoint_load_ignores_file_content :
    loadInitialCursor "---\nposition: C1\n" = CursorRecord.mk "" ∧
    parseCursorYaml "---\nposition: C1\n" = some (CursorRecord.mk "C1") := by
  exact ⟨rfl, by decide⟩

theorem advanceWithStop_eq (m : Nat) :
    ∀ k p, p ≤ m → advanceWithStop m k p = min (p + k) m := by
  intro k
  induction k with
  | zero => intro p hp; simp [advanceWithStop]; omega
  | succ k ih =>
    intro p hp
    simp only [advanceWithStop]
    by_cases h : p < m
    · rw [if_pos h, ih (p + 1) h]; omega
    · rw [if_neg h]; omega

theorem advanceUnchecked_eq (m : Nat) :
    ∀ k p, p ≤ m → advanceUnchecked m k p = min (p + k) m := by
  intro k
  induction k with
  | zero => intro p hp; simp [advanceUnchecked]; omega
  | succ k ih =>
    intro p hp
    simp only [advanceUnchecked, nextPos]
    by_cases h : p < m
    · rw [if_pos h, ih (p + 1) h]; omega
    · rw [if_neg h, ih p hp]; omega

/-- C5 counterexample: for history policy count 3 on a journal of 5
records, the resolved position is the 5th-oldest record, not the 3rd-oldest
record the claim states. -/
theorem count_seek_three_of_five_overshoots :
    seekCountPositive 3 5 = 5 ∧ seekCountPositive 3 5 ≠ 3 := by
  exact ⟨by decide, by decide⟩

/-- C5 amended: for count n with n positive on a journal of m records, the
resolver seeks to the oldest record and then runs two advance loops of n
steps each, the first stopping early at the end and the second a no-op past
the end, so the resolved position is the smaller of 2n and m. -/
theorem count_seek_advances_twice (n m : Nat) (h : 0 < n) :
    seekCountPositive n m = min (2 * n) m := by
  unfold seekCountPositive
  rw [advanceWithStop_eq m n 0 (Nat.zero_le m)]
  rw [advanceUnchecked_eq m n (min (0 + n) m) (by omega)]
  omega

/-- Witness for C5 amended at count 3 and 5 records. -/
theorem count_seek_advances_twice_witness :
    0 < 3 ∧ seekCountPositive 3 5 = min (2 * 3) 5 :=
  ⟨by decide, count_seek_advances_twice 3 5 (by decide)⟩

/-- C6 counterexample: the key normalization of the child loop rewrites the
substring source anywhere in a key, not only a key literally named source,
and rewrites message-dot anywhere, not only as a prefix, diverging from the
claim on the raw fields SOURCE_PATH and FOO_MESSAGE_BAR. -/
theorem normalize_key_rewrites_substrings :
    normalizeKey "SOURCE_PATH" = "originator.path" ∧
    claimNormalizeKey "SOURCE_PATH" = "source.path" ∧
    normalizeKey "SOURCE_PATH" ≠ claimNormalizeKey "SOURCE_PATH" ∧
    normalizeKey "FOO_MESSAGE_BAR" = "foo.originator.bar" ∧
    claimNormalizeKey "FOO_MESSAGE_BAR" = "foo.message.bar" := by
  refine ⟨?_, ?_, ?_, ?_, ?_⟩ <;> decide

/-- C6 amended: the normalized key is produced by replacing underscore with
dot, lowercasing, stripping leading dots, then replacing every occurrence of
the substring source with originator and afterwards every occurrence of the
substring message-dot with originator-dot; stated against an independent
split-then-join formulation of replace-all. -/
theorem normalize_key_replaces_every_occurrence (k : String) :
    normalizeKey k = specNormalizeKey k := by
  unfold normalizeKey specNormalizeKey
  simp only [replaceAll_eq_specReplace]

/-- C10: each worker child processes at most 999999 records before exiting
voluntarily, because its read loop iterates a fixed bounded range. -/
theorem worker_processes_bounded_records (now : UtcTime) (journal : List JEntry) :
    (childProcess now journal).length ≤ 999999 := by
  unfold childProcess
  refine le_trans (List.length_filterMap_le _ _) ?_
  simp [List.length_take]

theorem replaceFuel_nil (pat repl : List Char) (fuel : Nat) :
    replaceFuel pat repl fuel [] = [] := by
  cases fuel <;> rfl

theorem cursorRun_writesSpaced :
    ∀ (evs : List (Nat × Option CursorRecord)) (s : CursorThreadState),
      writesSpaced s.pit (cursorRun s evs) := by
  intro evs
  induction evs with
  | nil => intro s; simp [cursorRun, writesSpaced]
  | cons ev rest ih =>
    intro s
    obtain ⟨now, recv⟩ := ev
    cases recv with
    | none =>
      have hstep : cursorStep s now none = (s, none) := rfl
      simp only [cursorRun, hstep]
      exact ih s
    | some c =>
      by_cases h : 1234 < now - s.pit ∧ s.writtenCursorValue ≠ c
      · have hstep : cursorStep s now (some c) =
            ({ pit := now, writtenCursorValue := c, localCursorValue := c }, some c) := by
          simp [cursorStep, h]
        simp only [cursorRun, hstep, writesSpaced]
        refine ⟨by omega, ?_⟩
        exact ih { pit := now, writtenCursorValue := c, localCursorValue := c }
      · have hstep : cursorStep s now (some c) = ({ s with localCursorValue := c }, none) := by
          simp only [cursorStep]
          rw [if_neg h]
        simp only [cursorRun, hstep]
        exact ih { s with localCursorValue := c }

theorem cursorRun_const_proposals (v : CursorRecord) :
    ∀ (ts : List Nat) (s : CursorThreadState), s.writtenCursorValue = v →
      cursorRun s (ts.map fun t => (t, some v)) = [] := by
  intro ts
  induction ts with
  | nil => intro s _; rfl
  | cons t ts ih =>
    intro s hs
    have hstep : cursorStep s t (some v) = ({ s with localCursorValue := v }, none) := by
      simp [cursorStep, hs]
    simp only [List.map_cons, cursorRun, hstep]
    exact ih _ hs

theorem cursorStep_write_changed (s : CursorThreadState) (now : Nat) (c c' : CursorRecord) :
    (cursorStep s now (some c)).2 = some c' →
      c' = c ∧ c ≠ s.writtenCursorValue ∧ s.pit + 1234 < now := by
  intro h
  by_cases hc : 1234 < now - s.pit ∧ s.writtenCursorValue ≠ c
  · have hstep : cursorStep s now (some c) =
        ({ pit := now, writtenCursorValue := c, localCursorValue := c }, some c) := by
      simp [cursorStep, hc]
    rw [hstep] at h
    have : c' = c := by simpa using h.symm
    exact ⟨this, fun hne => hc.2 hne.symm, by omega⟩
  · have hstep : cursorStep s now (some c) = ({ s with localCursorValue := c }, none) := by
      simp only [cursorStep]
      rw [if_neg hc]
    rw [hstep] at h
    simp at h

/-- C7: the checkpoint store debounces: durable writes in any run are
spaced more than the fixed 1234 millisecond interval apart starting from the
thread start instant; proposing the value most recently written causes no
write, a run fed only with that value writes nothing, and any write implies
the proposed value changed and the interval elapsed. -/
theorem checkpoint_store_debounced_writes (s : CursorThreadState)
    (evs : List (Nat × Option CursorRecord)) (ts : List Nat) (now : Nat) :
    writesSpaced s.pit (cursorRun s evs) ∧
    (cursorStep s now (some s.writtenCursorValue)).2 = none ∧
    cursorRun s (ts.map fun t => (t, some s.writtenCursorValue)) = [] ∧
    ∀ c c', (cursorStep s now (some c)).2 = some c' →
      c' = c ∧ c ≠ s.writtenCursorValue ∧ s.pit + 1234 < now := by
  refine ⟨cursorRun_writesSpaced evs s, ?_, cursorRun_const_proposals _ ts s rfl, ?_⟩
  · simp [cursorStep]
  · exact cursorStep_write_changed s now

/-- Witness for C7 applying the write-implies-changed conjunct at a
concrete state, time and proposed cursor. -/
theorem checkpoint_store_debounced_writes_witness :
    CursorRecord.mk "Cx" ≠ (⟨0, ⟨""⟩, ⟨""⟩⟩ : CursorThreadState).writtenCursorValue ∧
    (⟨0, ⟨""⟩, ⟨""⟩⟩ : CursorThreadState).pit + 1234 < 2000 :=
  ((checkpoint_store_debounced_writes ⟨0, ⟨""⟩, ⟨""⟩⟩ [] [] 2000).2.2.2
    (CursorRecord.mk "Cx") (CursorRecord.mk "Cx") (by decide)).2

/-- Concrete journal run for the first worker: one record at cursor C1. -/
def exJournalOne : List JEntry :=
  [⟨[("MESSAGE", "m")], "C1", some ⟨2024, 1, 2, 3, 4, 5, 0⟩⟩]

/-- Concrete journal run for the second worker. -/
def exJournalTwo : List JEntry :=
  [⟨[("MESSAGE", "n")], "C2", none⟩]

/-- C3 counterexample: with startup cursor C0, the first worker delivers
the record at cursor C1 and the checkpoint store durably writes C1, yet the
second worker started after the first one exits seeks to C0, the cursor
resolved at original startup, not to the persisted checkpoint C1. -/
theorem restart_seeks_startup_cursor_not_checkpoint :
    (runShipper (fun _ => true) (childProcess ⟨2024, 1, 2, 3, 4, 5, 0⟩ exJournalOne)).1 =
      [CursorRecord.mk "C1"] ∧
    cursorRun ⟨0, ⟨""⟩, ⟨""⟩⟩ [(2000, some (CursorRecord.mk "C1"))] =
      [(2000, CursorRecord.mk "C1")] ∧
    supervisorSeeks ⟨CursorRecord.mk "C0"⟩ [exJournalOne, exJournalTwo] =
      [CursorRecord.mk "C0", CursorRecord.mk "C0"] ∧
    CursorRecord.mk "C0" ≠ CursorRecord.mk "C1" := by
  refine ⟨?_, ?_, ?_, ?_⟩ <;> decide

/-- C3 amended: every worker started by the supervisor seeks to the cursor
resolved at original startup: the fork gives each child a copy of the
parent state, the parent never observes the child updates or the persisted
checkpoint, so the seek cursor is the same for every cycle. -/
theorem supervisor_reseeds_startup_cursor (p : ParentState) (js : List (List JEntry)) :
    supervisorSeeks p js = js.map fun _ => p.localCursorValue := by
  induction js with
  | nil => rfl
  | cons j js ih => simp [supervisorSeeks, supervisorCycle, ih]

/-- First queued delivery entry for the shipper counterexample. -/
def exEntryA : List (String × String) × CursorRecord := ([("a", "1")], ⟨"c1"⟩)

/-- Second queued delivery entry for the shipper counterexample. -/
def exEntryB : List (String × String) × CursorRecord := ([("b", "2")], ⟨"c2"⟩)

/-- C4 counterexample: with two records buffered and the write of the
second one failing, the shipper acknowledges only the first, panics, and
never writes the second buffered record; it does not reconnect and retry. -/
theorem shipper_drops_buffered_records_on_write_failure :
    runShipper (fun j => j != [("b", "2")]) [exEntryA, exEntryB] =
      ([CursorRecord.mk "c1"], [exEntryB], true) ∧
    exEntryB ∈ (runShipper (fun j => j != [("b", "2")]) [exEntryA, exEntryB]).2.1 ∧
    (runShipper (fun j => j != [("b", "2")]) [exEntryA, exEntryB]).2.2 = true := by
  refine ⟨?_, ?_, ?_⟩ <;> decide

/-- C4 amended: on a network write failure the shipper sleeps one fixed
backoff interval and then panics, terminating without reconnecting: the
cursors of the successfully written prefix are acknowledged, and the failed
record together with every record buffered behind it is never written by
the shipper. -/
theorem shipper_write_failure_panics (wOk : List (String × String) → Bool)
    (pre rest : List (List (String × String) × CursorRecord))
    (e : List (String × String) × CursorRecord)
    (hpre : ∀ p, p ∈ pre → wOk p.1 = true) (he : wOk e.1 = false) :
    runShipper wOk (pre ++ e :: rest) = (pre.map Prod.snd, e :: rest, true) := by
  induction pre with
  | nil => simp [runShipper, he]
  | cons x xs ih =>
    have hx : wOk x.1 = true := hpre x (List.mem_cons_self x xs)
    have ih2 := ih fun p hp => hpre p (List.mem_cons_of_mem x hp)
    simp [runShipper, hx, ih2]

/-- Witness for C4 amended at the concrete two-entry queue. -/
theorem shipper_write_failure_panics_witness :
    runShipper (fun j => j != [("b", "2")]) ([exEntryA] ++ exEntryB :: []) =
      ([exEntryA].map Prod.snd, exEntryB :: [], true) :=
  shipper_write_failure_panics (fun j => j != [("b", "2")]) [exEntryA] []
    exEntryB (by decide) (by decide)

theorem digitChar_ne_plus (n : Nat) : digitChar n ≠ '+' := by
  unfold digitChar
  split <;> decide

theorem plus_not_mem_pad2 (n : Nat) : '+' ∉ pad2 n := by
  intro h
  simp only [pad2, List.mem_cons, List.not_mem_nil, or_false] at h
  rcases h with h | h <;> exact digitChar_ne_plus _ h.symm

theorem plus_not_mem_pad3 (n : Nat) : '+' ∉ pad3 n := by
  intro h
  simp only [pad3, List.mem_cons, List.not_mem_nil, or_false] at h
  rcases h with h | h | h <;> exact digitChar_ne_plus _ h.symm

theorem plus_not_mem_pad4 (n : Nat) : '+' ∉ pad4 n := by
  intro h
  simp only [pad4, List.mem_cons, List.not_mem_nil, or_false] at h
  rcases h with h | h | h | h <;> exact digitChar_ne_plus _ h.symm

theorem plus_not_mem_pad6 (n : Nat) : '+' ∉ pad6 n := by
  intro h
  simp only [pad6, List.mem_cons, List.not_mem_nil, or_false] at h
  rcases h with h | h | h | h | h | h <;> exact digitChar_ne_plus _ h.symm

theorem plus_not_mem_fracChars (n : Nat) : '+' ∉ fracChars n := by
  unfold fracChars
  split
  · simp
  · split
    · intro h
      rcases List.mem_cons.mp h with h | h
      · exact absurd h (by decide)
      · exact plus_not_mem_pad3 _ h
    · intro h
      rcases List.mem_cons.mp h with h | h
      · exact absurd h (by decide)
      · exact plus_not_mem_pad6 _ h

theorem plus_not_mem_bodyChars (t : UtcTime) : '+' ∉ bodyChars t := by
  unfold bodyChars
  intro h
  simp only [List.append_assoc, List.cons_append] at h
  rcases List.mem_append.mp h with h | h
  · exact plus_not_mem_pad4 _ h
  rcases List.mem_cons.mp h with h | h
  · exact absurd h (by decide)
  rcases List.mem_append.mp h with h | h
  · exact plus_not_mem_pad2 _ h
  rcases List.mem_cons.mp h with h | h
  · exact absurd h (by decide)
  rcases List.mem_append.mp h with h | h
  · exact plus_not_mem_pad2 _ h
  rcases List.mem_cons.mp h with h | h
  · exact absurd h (by decide)
  rcases List.mem_append.mp h with h | h
  · exact plus_not_mem_pad2 _ h
  rcases List.mem_cons.mp h with h | h
  · exact absurd h (by decide)
  rcases List.mem_append.mp h with h | h
  · exact plus_not_mem_pad2 _ h
  rcases List.mem_cons.mp h with h | h
  · exact absurd h (by decide)
  rcases List.mem_append.mp h with h | h
  · exact plus_not_mem_pad2 _ h
  exact plus_not_mem_fracChars _ h

theorem replaceFuel_plus_suffix :
    ∀ (xs : List Char) (fuel : Nat), xs.length + 6 ≤ fuel → '+' ∉ xs →
      replaceFuel plusZeroSuffix ['Z'] fuel (xs ++ plusZeroSuffix) = xs ++ ['Z'] := by
  intro xs
  induction xs with
  | nil =>
    intro fuel hf _
    cases fuel with
    | zero => omega
    | succ f =>
      show replaceFuel plusZeroSuffix ['Z'] (f + 1)
          ('+' :: ['0', '0', ':', '0', '0']) = ['Z']
      simp only [replaceFuel]
      rw [if_pos (by decide)]
      simp [plusZeroSuffix, replaceFuel_nil]
  | cons c xs ih =>
    intro fuel hf hmem
    have hc : c ≠ '+' := by
      intro h
      exact hmem (h ▸ List.mem_cons_self c xs)
    have hxs : '+' ∉ xs := fun h => hmem (List.mem_cons_of_mem c h)
    cases fuel with
    | zero => simp at hf
    | succ f =>
      have hpre : plusZeroSuffix.isPrefixOf (c :: (xs ++ plusZeroSuffix)) = false := by
        have hbeq : ('+' == c) = false := beq_eq_false_iff_ne.mpr (Ne.symm hc)
        show List.isPrefixOf ('+' :: ['0', '0', ':', '0', '0'])
          (c :: (xs ++ plusZeroSuffix)) = false
        simp [List.isPrefixOf, hbeq]
      show replaceFuel plusZeroSuffix ['Z'] (f + 1)
          (c :: (xs ++ plusZeroSuffix)) = c :: (xs ++ ['Z'])
      simp only [replaceFuel, hpre]
      simp only [Bool.false_eq_true, if_false]
      have hlen : xs.length + 6 ≤ f := by
        simp only [List.length_cons] at hf
        omega
      rw [ih f hlen hxs]

theorem timestampString_data (t : UtcTime) :
    (timestampString t).data = bodyChars t ++ ['Z'] := by
  show replaceAll plusZeroSuffix ['Z'] (toRfc3339Chars t) = bodyChars t ++ ['Z']
  unfold replaceAll toRfc3339Chars
  apply replaceFuel_plus_suffix
  · simp [plusZeroSuffix, List.length_append]
  · exact plus_not_mem_bodyChars t

theorem find?_append_cases {α : Type} (p : α → Bool) :
    ∀ (l1 l2 : List α), List.find? p (l1 ++ l2) =
      ((List.find? p l1).orElse fun _ => List.find? p l2) := by
  intro l1 l2
  induction l1 with
  | nil => rfl
  | cons x xs ih =>
    by_cases h : p x
    · rw [List.cons_append, List.find?_cons_of_pos _ h, List.find?_cons_of_pos _ h]
      rfl
    · rw [List.cons_append, List.find?_cons_of_neg _ h, List.find?_cons_of_neg _ h]
      exact ih

theorem find?_filter_other {α : Type} (p q : α → Bool)
    (hpq : ∀ a, p a = true → q a = true) :
    ∀ l : List α, List.find? p (l.filter q) = List.find? p l := by
  intro l
  induction l with
  | nil => rfl
  | cons x xs ih =>
    by_cases hq : q x
    · rw [List.filter_cons_of_pos hq]
      by_cases hp : p x
      · rw [List.find?_cons_of_pos _ hp, List.find?_cons_of_pos _ hp]
      · rw [List.find?_cons_of_neg _ hp, List.find?_cons_of_neg _ hp]
        exact ih
    · rw [List.filter_cons_of_neg hq]
      have hp : ¬ p x := fun hc => hq (hpq x hc)
      rw [List.find?_cons_of_neg _ hp]
      exact ih

theorem jmLookup_insert_self (k v : String) (m : List (String × String)) :
    jmLookup k (jmInsert k v m) = some v := by
  unfold jmLookup jmInsert
  rw [find?_append_cases]
  have hnone : List.find? (fun kv => kv.1 == k) (m.filter fun kv => kv.1 != k) = none := by
    rw [List.find?_eq_none]
    intro kv hkv
    have := List.of_mem_filter hkv
    simpa [bne] using this
  rw [hnone]
  show Option.map Prod.snd (List.find? (fun kv : String × String => kv.1 == k) [(k, v)]) =
    some v
  simp [List.find?]

theorem jmLookup_insert_other (k k' v : String) (m : List (String × String))
    (h : k' ≠ k) :
    jmLookup k (jmInsert k' v m) = jmLookup k m := by
  unfold jmLookup jmInsert
  rw [find?_append_cases]
  have hfil := find?_filter_other (fun kv : String × String => kv.1 == k)
    (fun kv : String × String => kv.1 != k')
    (fun a ha => by
      have h2 : a.1 = k := by simpa using ha
      show (a.1 != k') = true
      rw [h2]
      simpa using Ne.symm h) m
  rw [hfil]
  cases hfind : List.find? (fun kv : String × String => kv.1 == k) m with
  | none =>
    have hb : ((k', v).1 == k) = false := by simpa using h
    show Option.map Prod.snd
        (List.find? (fun kv : String × String => kv.1 == k) [(k', v)]) =
      Option.map Prod.snd (none : Option (String × String))
    simp [List.find?, hb]
  | some kv => rfl

theorem jmLookup_foldl_other (k : String) :
    ∀ (fields : List (String × String)) (m : List (String × String)),
      (∀ f, f ∈ fields → normalizeKey f.1 ≠ k) →
      jmLookup k (fields.foldl (fun acc kv => jmInsert (normalizeKey kv.1) kv.2 acc) m) =
        jmLookup k m := by
  intro fields
  induction fields with
  | nil => intro m _; rfl
  | cons f fs ih =>
    intro m hcol
    simp only [List.foldl_cons]
    rw [ih _ fun g hg => hcol g (List.mem_cons_of_mem f hg)]
    exact jmLookup_insert_other k _ f.2 m (hcol f (List.mem_cons_self f fs))

/-- C8 counterexample: the duplication part of the claim fails for every
record it does not hold on: the legal journald field name
JOURNALD-underscore-TIMESTAMP normalizes to the journald timestamp key, and
since record fields are inserted after the metadata keys with
last-write-wins semantics, its value overwrites the duplicated timestamp,
so the journald timestamp entry no longer equals the at-timestamp entry. -/
theorem timestamp_duplicate_overwritten_by_record_field :
    normalizeKey "JOURNALD_TIMESTAMP" = "journald.timestamp" ∧
    jmLookup "journald.timestamp"
        (mkJsonDoc ⟨2024, 1, 2, 3, 4, 5, 0⟩
          (JEntry.mk [("JOURNALD_TIMESTAMP", "1700000000")] "C1" none)) =
      some "1700000000" ∧
    jmLookup "journald.timestamp"
        (mkJsonDoc ⟨2024, 1, 2, 3, 4, 5, 0⟩
          (JEntry.mk [("JOURNALD_TIMESTAMP", "1700000000")] "C1" none)) ≠
      jmLookup "@timestamp"
        (mkJsonDoc ⟨2024, 1, 2, 3, 4, 5, 0⟩
          (JEntry.mk [("JOURNALD_TIMESTAMP", "1700000000")] "C1" none)) := by
  refine ⟨?_, ?_, ?_⟩ <;> decide

/-- C8 amended: the transformed document carries an RFC3339 UTC timestamp:
its string is the date-time body followed by the literal Z, it contains no
plus-zero-zero offset, it is stored under the at-timestamp key, and when the
source timestamp is unavailable the current wall clock is substituted, so
the record never fails; it is duplicated unchanged under the journald
timestamp key provided no record field itself normalizes to one of the two
timestamp keys (a field normalizing there is inserted later and overwrites
the entry). -/
theorem transform_timestamp_utc_z (now : UtcTime) (e : JEntry)
    (hcol : ∀ f, f ∈ e.fields → normalizeKey f.1 ≠ "@timestamp" ∧
      normalizeKey f.1 ≠ "journald.timestamp") :
    (timestampString (e.timestamp.getD now)).data =
      bodyChars (e.timestamp.getD now) ++ ['Z'] ∧
    ¬ List.IsInfix plusZeroSuffix (timestampString (e.timestamp.getD now)).data ∧
    jmLookup "@timestamp" (mkJsonDoc now e) =
      some (timestampString (e.timestamp.getD now)) ∧
    jmLookup "journald.timestamp" (mkJsonDoc now e) =
      jmLookup "@timestamp" (mkJsonDoc now e) ∧
    timestampString ((none : Option UtcTime).getD now) = timestampString now := by
  have hdata := timestampString_data (e.timestamp.getD now)
  have hts : jmLookup "@timestamp" (mkJsonDoc now e) =
      some (timestampString (e.timestamp.getD now)) := by
    unfold mkJsonDoc
    rw [jmLookup_foldl_other _ e.fields _ fun f hf => (hcol f hf).1]
    rw [jmLookup_insert_other _ _ _ _ (by decide)]
    rw [jmLookup_insert_other _ _ _ _ (by decide)]
    exact jmLookup_insert_self _ _ _
  have hjts : jmLookup "journald.timestamp" (mkJsonDoc now e) =
      some (timestampString (e.timestamp.getD now)) := by
    unfold mkJsonDoc
    rw [jmLookup_foldl_other _ e.fields _ fun f hf => (hcol f hf).2]
    rw [jmLookup_insert_other _ _ _ _ (by decide)]
    exact jmLookup_insert_self _ _ _
  refine ⟨hdata, ?_, hts, by rw [hjts, hts], rfl⟩
  intro hinf
  have hplus : '+' ∈ (timestampString (e.timestamp.getD now)).data :=
    hinf.subset (by simp [plusZeroSuffix])
  rw [hdata] at hplus
  rcases List.mem_append.mp hplus with h | h
  · exact plus_not_mem_bodyChars _ h
  · exact absurd h (by decide)

/-- Witness for C8 at a concrete record with the source timestamp absent. -/
theorem transform_timestamp_utc_z_witness :
    (timestampString ((JEntry.mk [("MESSAGE", "m")] "C1" none).timestamp.getD
        ⟨2024, 1, 2, 3, 4, 5, 0⟩)).data =
      bodyChars ((JEntry.mk [("MESSAGE", "m")] "C1" none).timestamp.getD
        ⟨2024, 1, 2, 3, 4, 5, 0⟩) ++ ['Z'] ∧
    ¬ List.IsInfix plusZeroSuffix
      (timestampString ((JEntry.mk [("MESSAGE", "m")] "C1" none).timestamp.getD
        ⟨2024, 1, 2, 3, 4, 5, 0⟩)).data ∧
    jmLookup "@timestamp"
        (mkJsonDoc ⟨2024, 1, 2, 3, 4, 5, 0⟩ (JEntry.mk [("MESSAGE", "m")] "C1" none)) =
      some (timestampString ((JEntry.mk [("MESSAGE", "m")] "C1" none).timestamp.getD
        ⟨2024, 1, 2, 3, 4, 5, 0⟩)) ∧
    jmLookup "journald.timestamp"
        (mkJsonDoc ⟨2024, 1, 2, 3, 4, 5, 0⟩ (JEntry.mk [("MESSAGE", "m")] "C1" none)) =
      jmLookup "@timestamp"
        (mkJsonDoc ⟨2024, 1, 2, 3, 4, 5, 0⟩ (JEntry.mk [("MESSAGE", "m")] "C1" none)) ∧
    timestampString ((none : Option UtcTime).getD ⟨2024, 1, 2, 3, 4, 5, 0⟩) =
      timestampString ⟨2024, 1, 2, 3, 4, 5, 0⟩ :=
  transform_timestamp_utc_z ⟨2024, 1, 2, 3, 4, 5, 0⟩
    (JEntry.mk [("MESSAGE", "m")] "C1" none) (by decide)

/-- C9: when the configured host name does not parse as an IP address
literal the shipper silently connects to 127.0.0.1 instead of resolving the
name or failing, and a configuration without host keys yields host
127.0.0.1, port 9000 and protocol tcp; the fallback literal itself parses
to the loopback address. -/
theorem host_fallback_to_localhost (host : String)
    (h : parseIpAddr host = none) :
    shipperConnectIp host = localhostIp ∧
    remoteHostOf ⟨none, none, none⟩ =
      some { host := "127.0.0.1", port := 9000, protocol := "tcp" } ∧
    parseIpAddr "127.0.0.1" = some localhostIp := by
  refine ⟨?_, by decide, by decide⟩
  unfold shipperConnectIp
  rw [h]
  rfl

/-- Witness for C9 at a DNS host name that is not an IP literal. -/
theorem host_fallback_to_localhost_witness :
    shipperConnectIp "example.com" = localhostIp ∧
    remoteHostOf ⟨none, none, none⟩ =
      some { host := "127.0.0.1", port := 9000, protocol := "tcp" } ∧
    parseIpAddr "127.0.0.1" = some localhostIp :=
  host_fallback_to_localhost "example.com" (by decide)

end JournaldShipper
